import Mathlib

/-!
Verification of the catalog acquisition and download-resolution engine of
node-ipslib against its natural-language specification.

The JavaScript modules `src/lib/downloads.js`, `src/lib/v3/downloads-ips3.js`
and `src/lib/v4/downloads-ips4.js` are shallowly embedded below: pure
record-manipulation code becomes Lean functions on explicit state, the
relevant JavaScript regular expressions become executable scanners over
`List Char`, and effectful steps (network fetches, cache writes, stream
writes) are made explicit as fields of result structures.
-/

namespace IpsLib

/-! ## Data model

A catalog record, as produced by `_fetchPage` and enriched later by
`_getDownloadUrl` (fields `description`, `info`) and `getFileDetails`
(field `files`, called the "listing" in the specification).  Fields that a
freshly fetched summary never carries are `Option`s defaulting to `none`.
-/

structure FileRec where
  url : String := ""
  id : Int
  title : String := ""
  description : String := ""
  downloads : Option Int := none
  views : Option Int := none
  author : String := ""
  broken : Bool := false
  /-- Set by `_getDownloadUrl`; absent on freshly fetched summaries. -/
  info : Option (List (String × String)) := none
  /-- The file listing, set by `getFileDetails` (`cachedFile.files`). -/
  files : Option (List String) := none
  filename : Option String := none
deriving DecidableEq, Repr

/-! ## Cache merge (`Downloads.prototype.getFiles`, src/lib/downloads.js 129-144)

```js
if (!_.isEmpty(files)) {
  result.forEach(file => { files = _.filter(files, f => f.id !== file.id); });
  files = files.concat(result);
} else {
  files = result;
}
```
-/

def mergeFiles (files result : List FileRec) : List FileRec :=
  if files ≠ [] then
    (result.foldl (fun fs file => fs.filter (fun f => f.id != file.id)) files) ++ result
  else
    result

/-- The per-element removal fold of the merge equals a single filter that
drops every cached record whose id occurs in the fetched result. -/
theorem foldl_filter_eq (result : List FileRec) :
    ∀ files : List FileRec,
      result.foldl (fun fs file => fs.filter (fun f => f.id != file.id)) files
        = files.filter (fun f => decide (∀ x ∈ result, f.id ≠ x.id)) := by
  induction result with
  | nil => intro files; simp
  | cons x xs ih =>
    intro files
    simp only [List.foldl_cons]
    rw [ih, List.filter_filter]
    congr 1
    funext f
    by_cases h : f.id = x.id
    · simp [h]
    · simp [h]

theorem mem_foldl_filter {result files : List FileRec} {f : FileRec}
    (h : f ∈ result.foldl (fun fs file => fs.filter (fun g => g.id != file.id)) files) :
    f ∈ files ∧ ∀ x ∈ result, f.id ≠ x.id := by
  rw [foldl_filter_eq] at h
  have := List.of_mem_filter h
  exact ⟨List.mem_of_mem_filter h, of_decide_eq_true this⟩

theorem mergeFiles_eq_filter_append (files result : List FileRec)
    (h : files ≠ []) :
    mergeFiles files result
      = files.filter (fun f => decide (∀ x ∈ result, f.id ≠ x.id)) ++ result := by
  rw [mergeFiles, if_pos h, foldl_filter_eq]

theorem filter_not_in_self (result : List FileRec) :
    result.filter (fun f => decide (∀ x ∈ result, f.id ≠ x.id)) = [] := by
  rw [List.filter_eq_nil_iff]
  intro a ha
  simp only [decide_eq_true_eq, not_forall]
  exact ⟨a, ha, fun hne => hne rfl⟩

/-- A previously cached record with enriched fields, as left behind by
`_getDownloadUrl` (description, info) and `getFileDetails` (files). -/
def oldEnrichedRec : FileRec :=
  { url := "http://example.org/index.php?app=downloads&showfile=1"
    id := 1
    title := "Widget"
    description := "Rich description captured earlier"
    downloads := some 10
    views := some 20
    author := "alice"
    info := some [("Version", "1.0")]
    files := some ["widget.vpt"] }

/-- A freshly fetched summary for the same id, carrying no enrichment:
`_fetchPage` rows never set `info` or `files`, and here the description is
the empty string. -/
def freshSummaryRec : FileRec :=
  { url := "http://example.org/index.php?app=downloads&showfile=1"
    id := 1
    title := "Widget"
    description := ""
    downloads := some 11
    views := some 21
    author := "alice" }

/-- Claim C1 counterexample: merging a fresh summary for an id whose cached
entry carries enriched `description`, `info` and `files` (the listing) does
NOT preserve those fields — the merged cache holds exactly the fresh record,
whose description is empty and whose `info` and `files` are absent, while
the removed entry had all three. -/
theorem mergeFiles_drops_enrichment_cex :
    mergeFiles [oldEnrichedRec] [freshSummaryRec] = [freshSummaryRec]
    ∧ freshSummaryRec.description ≠ oldEnrichedRec.description
    ∧ freshSummaryRec.info = none
    ∧ freshSummaryRec.files = none
    ∧ oldEnrichedRec.info ≠ none
    ∧ oldEnrichedRec.files ≠ none := by
  refine ⟨by decide, by decide, by decide, by decide, by decide, by decide⟩

/-- Claim C1 (amended): the merge replaces a cached entry wholesale.  For
every fresh record, all records of the merged list carrying its id come
from the fetched result unchanged; nothing is carried forward from the
removed cache entry. -/
theorem mergeFiles_replaces_wholesale (files result : List FileRec) (rec : FileRec)
    (hmem : rec ∈ result) :
    (mergeFiles files result).filter (fun f => f.id == rec.id)
      = result.filter (fun f => f.id == rec.id) := by
  by_cases h : files = []
  · rw [mergeFiles, if_neg (by simp [h])]
  · rw [mergeFiles_eq_filter_append files result h, List.filter_append]
    have hnil : (files.filter (fun f => decide (∀ x ∈ result, f.id ≠ x.id))).filter
        (fun f => f.id == rec.id) = [] := by
      rw [List.filter_eq_nil_iff]
      intro a ha
      have hall : ∀ x ∈ result, a.id ≠ x.id := by
        have h1 := List.of_mem_filter ha
        simpa using h1
      simp [hall rec hmem]
    rw [hnil, List.nil_append]

/-- Witness for the amended claim C1 at a concrete input. -/
theorem mergeFiles_replaces_wholesale_witness :
    (mergeFiles [oldEnrichedRec] [freshSummaryRec]).filter
        (fun f => f.id == freshSummaryRec.id)
      = [freshSummaryRec].filter (fun f => f.id == freshSummaryRec.id) :=
  mergeFiles_replaces_wholesale [oldEnrichedRec] [freshSummaryRec] freshSummaryRec
    (by simp)

/-- Two small records with distinct ids, used to instantiate the merge
idempotence theorem. -/
def recA : FileRec := { id := 1, title := "A" }

def recB : FileRec := { id := 2, title := "B" }

/-- Claim C2: merging the same fetched page twice into a non-empty cache is
idempotent, the merged list has pairwise distinct ids, and its size is the
size of the union by id of the cache and the page (ids assumed unique
within the cache and within the page, per the stated cache invariant). -/
theorem mergeFiles_idempotent_nodup (files result : List FileRec)
    (hne : files ≠ [])
    (hfiles : (files.map (fun f => f.id)).Nodup)
    (hresult : (result.map (fun f => f.id)).Nodup) :
    mergeFiles (mergeFiles files result) result = mergeFiles files result
    ∧ ((mergeFiles files result).map (fun f => f.id)).Nodup
    ∧ (mergeFiles files result).length
        = ((files.map (fun f => f.id)).toFinset
            ∪ (result.map (fun f => f.id)).toFinset).card := by
  have hM := mergeFiles_eq_filter_append files result hne
  set P : FileRec → Bool := fun f => decide (∀ x ∈ result, f.id ≠ x.id) with hP
  have hMne : mergeFiles files result ≠ [] := by
    rw [hM]
    rcases result with _ | ⟨r, rs⟩
    · simpa [P] using hne
    · simp
  have hfilter_mem : ∀ f ∈ files.filter P, ∀ x ∈ result, f.id ≠ x.id := by
    intro f hf
    have h1 : P f = true := List.of_mem_filter hf
    rw [hP] at h1
    exact of_decide_eq_true h1
  refine ⟨?_, ?_, ?_⟩
  · -- idempotence
    rw [mergeFiles_eq_filter_append _ result hMne, hM, List.filter_append,
      filter_not_in_self, List.append_nil, List.filter_filter]
    have : (fun f => P f && P f) = P := by
      funext f; exact Bool.and_self (P f)
    rw [this]
  · -- no two records share an id
    rw [hM, List.map_append, List.nodup_append]
    refine ⟨(hfiles.sublist (List.Sublist.map _ (List.filter_sublist files))), hresult, ?_⟩
    intro i hi hri
    rcases List.mem_map.mp hi with ⟨f, hf, hfi⟩
    rcases List.mem_map.mp hri with ⟨x, hx, hxi⟩
    exact hfilter_mem f hf x hx (hfi.trans hxi.symm)
  · -- size equals the union by id
    have hnodup : ((mergeFiles files result).map (fun f => f.id)).Nodup := by
      rw [hM, List.map_append, List.nodup_append]
      refine ⟨(hfiles.sublist (List.Sublist.map _ (List.filter_sublist files))), hresult, ?_⟩
      intro i hi hri
      rcases List.mem_map.mp hi with ⟨f, hf, hfi⟩
      rcases List.mem_map.mp hri with ⟨x, hx, hxi⟩
      exact hfilter_mem f hf x hx (hfi.trans hxi.symm)
    have hsets : ((mergeFiles files result).map (fun f => f.id)).toFinset
        = (files.map (fun f => f.id)).toFinset
          ∪ (result.map (fun f => f.id)).toFinset := by
      ext i
      simp only [List.mem_toFinset, Finset.mem_union, hM, List.map_append,
        List.mem_append, List.mem_map, List.mem_filter]
      constructor
      · rintro (⟨f, ⟨hf, _⟩, hfi⟩ | hx)
        · exact Or.inl ⟨f, hf, hfi⟩
        · exact Or.inr hx
      · rintro (⟨f, hf, hfi⟩ | hx)
        · by_cases hin : ∃ x ∈ result, x.id = i
          · rcases hin with ⟨x, hx, hxi⟩
            exact Or.inr ⟨x, hx, hxi⟩
          · refine Or.inl ⟨f, ⟨hf, ?_⟩, hfi⟩
            simp only [P, decide_eq_true_eq]
            intro x hx heq
            exact hin ⟨x, hx, heq.symm.trans hfi⟩
        · exact Or.inr hx
    calc (mergeFiles files result).length
        = ((mergeFiles files result).map (fun f => f.id)).length := by
          rw [List.length_map]
      _ = ((mergeFiles files result).map (fun f => f.id)).toFinset.card :=
          (List.toFinset_card_of_nodup hnodup).symm
      _ = ((files.map (fun f => f.id)).toFinset
            ∪ (result.map (fun f => f.id)).toFinset).card := by rw [hsets]

/-- Witness for claim C2 at a concrete input. -/
theorem mergeFiles_idempotent_nodup_witness :
    mergeFiles (mergeFiles [recA] [recB]) [recB] = mergeFiles [recA] [recB]
    ∧ ((mergeFiles [recA] [recB]).map (fun f => f.id)).Nodup
    ∧ (mergeFiles [recA] [recB]).length
        = ((([recA] : List FileRec).map (fun f => f.id)).toFinset
            ∪ (([recB] : List FileRec).map (fun f => f.id)).toFinset).card :=
  mergeFiles_idempotent_nodup [recA] [recB] (by decide) (by decide) (by decide)

/-! ## Category references and `getFiles` argument validation
(src/lib/downloads.js 104-146)

A JavaScript value passed as the `cat` argument.  JavaScript numbers are
modelled as rationals, which represent every numeric literal the claims
need exactly; a plain object carries the `url` and `id` properties that
`getFiles` inspects.
-/

inductive CatRef
  | vnull
  | vundef
  | vbool (b : Bool)
  | vnum (q : ℚ)
  | vstr (s : String)
  | vobj (url : Option String) (id : Option ℚ)
deriving DecidableEq, Repr

/-- JavaScript truthiness of the `cat` argument (`if (!cat) ...`). -/
def CatRef.truthy : CatRef → Bool
  | .vnull => false
  | .vundef => false
  | .vbool b => b
  | .vnum q => q != 0
  | .vstr s => s != ""
  | .vobj _ _ => true

/-- `_.isObject(cat)` restricted to the value shapes modelled here. -/
def CatRef.isObject : CatRef → Bool
  | .vobj _ _ => true
  | _ => false

/-- `_.isNumber(cat)`: true for every number, integral or not. -/
def CatRef.isNumber : CatRef → Bool
  | .vnum _ => true
  | _ => false

/-- Truthiness of `cat.url` (absent or empty string are both falsy). -/
def CatRef.urlTruthy : CatRef → Bool
  | .vobj (some u) _ => u != ""
  | _ => false

/-- `_.isObject(cat) ? cat.id : cat`. -/
def CatRef.catId : CatRef → Option ℚ
  | .vobj _ i => i
  | .vnum q => some q
  | _ => none

/-- The in-memory file cache: a mapping from category id to its record
list, with JavaScript property-access semantics (first binding wins). -/
abbrev FileCache := List (ℚ × List FileRec)

def lookupAssoc : FileCache → ℚ → List FileRec
  | [], _ => []
  | p :: ps, k => if p.1 == k then p.2 else lookupAssoc ps k

/-- `_getFileCache(categoryId)`: the stored list for the key, or `[]` when
the key is absent or undefined. -/
def lookupCache (cache : FileCache) : Option ℚ → List FileRec
  | none => []
  | some k => lookupAssoc cache k

/-- JavaScript property assignment `this._fileCache[categoryId] = files`:
replace the binding when present, add it otherwise. -/
def setCache : FileCache → ℚ → List FileRec → FileCache
  | [], k, v => [(k, v)]
  | p :: ps, k, v => if p.1 == k then (k, v) :: ps else p :: setCache ps k v

/-- `_saveFileCache(categoryId, files)` (src/lib/downloads.js 538-544):
update the single category when both arguments are truthy, then persist
the ENTIRE in-memory mapping; the returned mapping is exactly the
document written to disk. -/
def saveFileCache (cache : FileCache) (catId : Option ℚ)
    (files : Option (List FileRec)) : FileCache :=
  match catId, files with
  | some k, some fs => if k ≠ 0 then setCache cache k fs else cache
  | _, _ => cache

/-- Outcome of one `getFiles` call: its settled value, whether any network
fetch happened, whether the cache was consulted, and the cache afterwards. -/
structure GetFilesRun where
  result : Except String (List FileRec)
  networkCalled : Bool
  cacheRead : Bool
  cacheAfter : FileCache
deriving Repr

def errUrlMsg : String := "Category must contain an url property."

def errNumMsg : String := "Category must be a number when not providing an object."

/-- `Downloads.prototype.getFiles` (src/lib/downloads.js 104-146), with the
page fetch replaced by the `fetched` oracle: falsy argument resolves `[]`
at once; validation errors are thrown before the cache is consulted; a
non-empty cache short-circuits the fetch unless `forceRefresh`; otherwise
the fetched page is merged, saved, and read back. -/
def getFiles (cat : CatRef) (cache : FileCache) (forceRefresh : Bool)
    (fetched : List FileRec) : GetFilesRun :=
  if cat.truthy = false then
    { result := .ok [], networkCalled := false, cacheRead := false, cacheAfter := cache }
  else if cat.isObject = true ∧ cat.urlTruthy = false then
    { result := .error errUrlMsg, networkCalled := false, cacheRead := false,
      cacheAfter := cache }
  else if cat.isObject = false ∧ cat.isNumber = false then
    { result := .error errNumMsg, networkCalled := false, cacheRead := false,
      cacheAfter := cache }
  else
    let files := lookupCache cache cat.catId
    if forceRefresh = false ∧ files ≠ [] then
      { result := .ok files, networkCalled := false, cacheRead := true,
        cacheAfter := cache }
    else
      let merged := mergeFiles files fetched
      let cache2 := saveFileCache cache cat.catId (some merged)
      { result := .ok (lookupCache cache2 cat.catId), networkCalled := true,
        cacheRead := true, cacheAfter := cache2 }

/-- Claim C10: every falsy category argument (null, undefined, 0, the
empty string) makes `getFiles` resolve successfully to the empty list with
no network call, no error, and the cache untouched. -/
theorem getFiles_falsy_resolves_empty :
    (∀ (cat : CatRef) (cache : FileCache) (forceRefresh : Bool)
        (fetched : List FileRec), cat.truthy = false →
      getFiles cat cache forceRefresh fetched
        = { result := .ok [], networkCalled := false, cacheRead := false,
            cacheAfter := cache })
    ∧ CatRef.vnull.truthy = false
    ∧ CatRef.vundef.truthy = false
    ∧ (CatRef.vnum 0).truthy = false
    ∧ (CatRef.vstr "").truthy = false := by
  refine ⟨?_, rfl, rfl, by decide, by decide⟩
  intro cat cache forceRefresh fetched h
  rw [getFiles, if_pos h]

/-- Witness for claim C10 at the concrete input `null`. -/
theorem getFiles_falsy_resolves_empty_witness :
    getFiles CatRef.vnull [(1, [recA])] false [recB]
      = { result := .ok [], networkCalled := false, cacheRead := false,
          cacheAfter := [(1, [recA])] } :=
  getFiles_falsy_resolves_empty.1 CatRef.vnull [(1, [recA])] false [recB] rfl

/-- The rational 3/2, given in normal form so that kernel reduction is
immediate. -/
def threeHalves : ℚ := ⟨3, 2, by decide, by decide⟩

/-- Claim C7 counterexample: the number 3/2 is neither an object nor an
integer, yet `getFiles` does not fail with an invalid-argument error — it
proceeds past validation and performs the fetch. -/
theorem getFiles_noninteger_number_cex :
    threeHalves.den ≠ 1
    ∧ (getFiles (CatRef.vnum threeHalves) [] false []).networkCalled = true
    ∧ (getFiles (CatRef.vnum threeHalves) [] false []).result = Except.ok [] := by
  refine ⟨by decide, rfl, rfl⟩

/-- Claim C7 (amended): a category reference that is an object without a
truthy `url`, or neither an object nor a NUMBER (the code tests
`_.isNumber`, so non-integral numbers are accepted), fails with an
invalid-argument error before any network call, before the cache is read,
and with the cache unchanged. -/
theorem getFiles_invalidArg_before_network (cat : CatRef) (cache : FileCache)
    (forceRefresh : Bool) (fetched : List FileRec)
    (htruthy : cat.truthy = true)
    (hbad : (cat.isObject = true ∧ cat.urlTruthy = false)
            ∨ (cat.isObject = false ∧ cat.isNumber = false)) :
    (getFiles cat cache forceRefresh fetched).networkCalled = false
    ∧ (getFiles cat cache forceRefresh fetched).cacheRead = false
    ∧ (getFiles cat cache forceRefresh fetched).cacheAfter = cache
    ∧ ∃ msg, (getFiles cat cache forceRefresh fetched).result = .error msg := by
  rcases hbad with ⟨h1, h2⟩ | ⟨h1, h2⟩
  · rw [getFiles, if_neg (by simp [htruthy]), if_pos ⟨h1, h2⟩]
    exact ⟨rfl, rfl, rfl, errUrlMsg, rfl⟩
  · rw [getFiles, if_neg (by simp [htruthy]), if_neg (by simp [h1]), if_pos ⟨h1, h2⟩]
    exact ⟨rfl, rfl, rfl, errNumMsg, rfl⟩

/-- Witness for the amended claim C7 at a concrete input: a non-empty
string is truthy but neither an object nor a number. -/
theorem getFiles_invalidArg_before_network_witness :
    (getFiles (CatRef.vstr "pinball") [] false []).networkCalled = false
    ∧ (getFiles (CatRef.vstr "pinball") [] false []).cacheRead = false
    ∧ (getFiles (CatRef.vstr "pinball") [] false []).cacheAfter = []
    ∧ ∃ msg, (getFiles (CatRef.vstr "pinball") [] false []).result = .error msg :=
  getFiles_invalidArg_before_network (CatRef.vstr "pinball") [] false []
    (by decide) (Or.inr ⟨rfl, rfl⟩)

/-! ## Persistence is a wholesale rewrite (claim C9) -/

theorem lookupAssoc_setCache_ne (cache : FileCache) (k : ℚ) (v : List FileRec)
    {b : ℚ} (hbk : b ≠ k) :
    lookupAssoc (setCache cache k v) b = lookupAssoc cache b := by
  have hkb : ¬((k == b) = true) := by
    intro hc; exact hbk (eq_of_beq hc).symm
  induction cache with
  | nil =>
    simp only [setCache, lookupAssoc]
    rw [if_neg hkb]
  | cons p ps ih =>
    by_cases h : p.1 = k
    · have hpb : ¬((p.1 == b) = true) := by
        intro hc; exact hbk ((h.symm.trans (eq_of_beq hc))).symm
      rw [setCache, if_pos (by simp [h]), lookupAssoc, if_neg hkb,
        lookupAssoc, if_neg hpb]
    · rw [setCache, if_neg (by simp [h]), lookupAssoc, lookupAssoc]
      by_cases hb : p.1 = b
      · rw [if_pos (by simp [hb]), if_pos (by simp [hb])]
      · have hpb : ¬((p.1 == b) = true) := by
          intro hc; exact hb (eq_of_beq hc)
        rw [if_neg hpb, if_neg hpb, ih]

theorem lookupAssoc_setCache_self (cache : FileCache) (k : ℚ) (v : List FileRec) :
    lookupAssoc (setCache cache k v) k = v := by
  induction cache with
  | nil => simp [setCache, lookupAssoc]
  | cons p ps ih =>
    by_cases h : p.1 = k
    · rw [setCache, if_pos (by simp [h]), lookupAssoc, if_pos (by simp)]
    · rw [setCache, if_neg (by simp [h]), lookupAssoc, if_neg (by simp [h]), ih]

theorem setCache_keeps_keys (cache : FileCache) (k : ℚ) (v : List FileRec) :
    ∀ p ∈ cache, ∃ q ∈ setCache cache k v, q.1 = p.1 := by
  induction cache with
  | nil => intro p hp; cases hp
  | cons p0 ps ih =>
    intro p hp
    by_cases h : p0.1 = k
    · rw [setCache, if_pos (by simp [h])]
      rcases List.mem_cons.mp hp with rfl | hps
      · exact ⟨(k, v), List.mem_cons_self _ _, h.symm⟩
      · exact ⟨p, List.mem_cons_of_mem _ hps, rfl⟩
    · rw [setCache, if_neg (by simp [h])]
      rcases List.mem_cons.mp hp with rfl | hps
      · exact ⟨p, List.mem_cons_self _ _, rfl⟩
      · rcases ih p hps with ⟨q, hq, hq1⟩
        exact ⟨q, List.mem_cons_of_mem _ hq, hq1⟩

/-- Claim C9: `_saveFileCache(a, files)` persists the whole in-memory
mapping.  Every other loaded category keeps exactly its previous records
in the persisted document, no loaded category disappears, and (for a
truthy id) the updated category holds the new records. -/
theorem saveFileCache_wholesale (cache : FileCache) (a : ℚ)
    (files : List FileRec) (b : ℚ) (hba : b ≠ a) :
    lookupCache (saveFileCache cache (some a) (some files)) (some b)
      = lookupCache cache (some b)
    ∧ (∀ p ∈ cache, ∃ q ∈ saveFileCache cache (some a) (some files), q.1 = p.1)
    ∧ (a ≠ 0 → lookupCache (saveFileCache cache (some a) (some files)) (some a)
        = files) := by
  refine ⟨?_, ?_, ?_⟩
  · rw [saveFileCache]
    by_cases h : a = 0
    · rw [if_neg (by simp [h])]
    · rw [if_pos h]
      exact lookupAssoc_setCache_ne cache a files hba
  · intro p hp
    rw [saveFileCache]
    by_cases h : a = 0
    · rw [if_neg (by simp [h])]
      exact ⟨p, hp, rfl⟩
    · rw [if_pos h]
      exact setCache_keeps_keys cache a files p hp
  · intro h
    rw [saveFileCache, if_pos h]
    exact lookupAssoc_setCache_self cache a files

/-- Witness for claim C9 at a concrete input: saving category 2 leaves
category 1 untouched in the persisted mapping. -/
theorem saveFileCache_wholesale_witness :
    lookupCache (saveFileCache [(1, [recA])] (some 2) (some [recB])) (some 1)
      = lookupCache [(1, [recA])] (some 1)
    ∧ (∀ p ∈ [((1 : ℚ), [recA])],
        ∃ q ∈ saveFileCache [(1, [recA])] (some 2) (some [recB]), q.1 = p.1)
    ∧ ((2 : ℚ) ≠ 0 →
        lookupCache (saveFileCache [(1, [recA])] (some 2) (some [recB])) (some 2)
          = [recB]) :=
  saveFileCache_wholesale [(1, [recA])] 2 [recB] 1 (by decide)

/-! ## Pagination (`Downloads.prototype._fetchPage`, src/lib/downloads.js 361-398)

```js
let pages = $('.pagination li.pagejump a').text();
let numPages = /\d+ of \d+/i.test(pages) ? parseInt(pages.match(/\d+ of (\d+)/i)[1], 10) : 1;
...
if (opts.firstPageOnly || page >= numPages) { return items; }
else { return Promise.delay(delay).then(() => this._fetchPage(cat, page + 1, opts, items)); }
```
-/

/-- One fetched page document, reduced to the two pieces `_fetchPage`
reads from it: the page-jump indicator text and the extracted record rows. -/
structure PageDoc where
  paginationText : String
  records : List FileRec
deriving Repr

/-- Value of an all-digit character run (`parseInt(ds, 10)`). -/
def digitsVal (ds : List Char) : Nat :=
  ds.foldl (fun n c => 10 * n + (c.toNat - 48)) 0

/-- Match of the JS regex `\d+ of (\d+)` (flag `i`) anchored at the head
of the input, returning the value of the captured second digit run. -/
def pageOfAt (cs : List Char) : Option Nat :=
  let ds := cs.takeWhile Char.isDigit
  if ds = [] then none
  else
    match cs.drop ds.length with
    | ' ' :: o :: f :: ' ' :: rest =>
      if o.toLower = 'o' ∧ f.toLower = 'f' then
        let ds2 := rest.takeWhile Char.isDigit
        if ds2 = [] then none else some (digitsVal ds2)
      else none
    | _ => none

/-- Leftmost match of `\d+ of (\d+)` in the input, as the JS regex engine
finds it. -/
def findPageOf : List Char → Option Nat
  | [] => none
  | c :: cs =>
    match pageOfAt (c :: cs) with
    | some n => some n
    | none => findPageOf cs

/-- The page count `_fetchPage` reads from the indicator text: the
captured number when `\d+ of (\d+)` matches, else 1. -/
def numPagesOf (s : String) : Nat :=
  match findPageOf s.toList with
  | some n => n
  | none => 1

/-- One iteration of the `_fetchPage` loop: either the loop returns the
accumulated items, or it continues with the next page number. -/
inductive FetchStep
  | done (items : List FileRec)
  | next (page : Nat) (items : List FileRec)
deriving Repr

def fetchStep (doc : PageDoc) (page : Nat) (firstPageOnly : Bool)
    (items : List FileRec) : FetchStep :=
  let items2 := items ++ doc.records
  if firstPageOnly = true ∨ numPagesOf doc.paginationText ≤ page then
    .done items2
  else
    .next (page + 1) items2

/-- The `_fetchPage` loop run against the finite sequence of documents the
server serves for pages `page`, `page+1`, ...  (the loop requests them
strictly one at a time). -/
def fetchRun (docs : List PageDoc) (page : Nat) (firstPageOnly : Bool)
    (items : List FileRec) : List FileRec :=
  match docs with
  | [] => items
  | doc :: rest =>
    match fetchStep doc page firstPageOnly items with
    | .done items2 => items2
    | .next page2 items2 => fetchRun rest page2 firstPageOnly items2

/-- Claim C5: the pagination loop stops exactly when `firstPageOnly` is
set or the current page has reached the count read from the "X of Y"
indicator; an absent indicator counts as 1 page; a first page reporting
"2 of 3" yields a page count of 3, and fetching with `firstPageOnly`
returns exactly the first page's records. -/
theorem fetchPage_stop_condition :
    (∀ (doc : PageDoc) (page : Nat) (fpo : Bool) (items : List FileRec),
        fetchStep doc page fpo items = FetchStep.done (items ++ doc.records)
          ↔ (fpo = true ∨ numPagesOf doc.paginationText ≤ page))
    ∧ (∀ s : String, findPageOf s.toList = none → numPagesOf s = 1)
    ∧ (∀ (d1 : PageDoc) (rest : List PageDoc),
        numPagesOf d1.paginationText = 3 →
          fetchRun (d1 :: rest) 1 true [] = d1.records)
    ∧ numPagesOf "2 of 3" = 3 := by
  refine ⟨?_, ?_, ?_, rfl⟩
  · intro doc page fpo items
    by_cases h : fpo = true ∨ numPagesOf doc.paginationText ≤ page
    · simp [fetchStep, h]
    · simp [fetchStep, h]
  · intro s h
    rw [numPagesOf, h]
  · intro d1 rest _
    simp [fetchRun, fetchStep]

/-- A first page reporting "2 of 3", and two further pages. -/
def pageDoc1 : PageDoc := { paginationText := "2 of 3", records := [recA] }

def pageDoc2 : PageDoc := { paginationText := "2 of 3", records := [recB] }

def pageDoc3 : PageDoc := { paginationText := "2 of 3", records := [] }

/-- Witness for claim C5 at concrete inputs: a three-page category fetched
with `firstPageOnly` yields only page 1's records, and a document without
an indicator counts as a single page. -/
theorem fetchPage_stop_condition_witness :
    fetchRun [pageDoc1, pageDoc2, pageDoc3] 1 true [] = pageDoc1.records
    ∧ numPagesOf "no page indicator here" = 1 :=
  ⟨fetchPage_stop_condition.2.2.1 pageDoc1 [pageDoc2, pageDoc3] rfl,
   fetchPage_stop_condition.2.1 "no page indicator here" rfl⟩

/-! ## File streaming (`Downloads.prototype._streamFile`, src/lib/downloads.js 465-488)

```js
const dest = resolve(destFolder, filename);
return new Promise((resolve, reject) => {
  var writeStream = fs.createWriteStream(dest);
  writeStream.on('close', () => { ... resolve(dest); }).on('error', reject);
  readStream.on('error', reject);
  readStream.resume();
  readStream.pipe(writeStream);
});
```
-/

structure StreamOutcome where
  /-- The destination path the promise resolves with. -/
  path : String
  /-- Paths present on disk afterwards. -/
  fsAfter : List String
  /-- Whether a write stream was opened at the destination and written. -/
  wrote : Bool
  /-- Whether the read stream was resumed and piped (consumed). -/
  streamConsumed : Bool
deriving DecidableEq, Repr

/-- Model of `path.resolve(destFolder, filename)` for a relative name. -/
def resolvePath (destFolder filename : String) : String :=
  destFolder ++ "/" ++ filename

/-- `_streamFile(readStream, filename, destFolder)`: the code opens a
write stream at the destination, resumes and pipes the read stream, and
resolves with the destination path.  It never consults the filesystem for
an existing file, so the write and the stream consumption are
unconditional and any existing file is overwritten. -/
def streamFile (fs : List String) (filename destFolder : String) : StreamOutcome :=
  let dest := resolvePath destFolder filename
  { path := dest
    fsAfter := if fs.contains dest then fs else dest :: fs
    wrote := true
    streamConsumed := true }

/-- Claim C3 counterexample: with `dl/a.zip` already present at the
destination, `_streamFile` still performs the underlying write and still
consumes the incoming stream — there is no idempotent skip. -/
theorem streamFile_exists_no_skip_cex :
    ("dl/a.zip" ∈ (["dl/a.zip"] : List String))
    ∧ (streamFile ["dl/a.zip"] "a.zip" "dl").path = "dl/a.zip"
    ∧ ¬((streamFile ["dl/a.zip"] "a.zip" "dl").wrote = false)
    ∧ ¬((streamFile ["dl/a.zip"] "a.zip" "dl").streamConsumed = false) := by
  refine ⟨by decide, rfl, by decide, by decide⟩

/-- Claim C3 (amended): `_streamFile` checks nothing before writing — for
every filesystem state it opens the write stream, consumes the source
stream and resolves with the destination path; a second call with the
same filename and destination performs the write again (overwriting) and
returns the same path. -/
theorem streamFile_always_writes (fs : List String) (filename destFolder : String) :
    (streamFile fs filename destFolder).wrote = true
    ∧ (streamFile fs filename destFolder).streamConsumed = true
    ∧ (streamFile fs filename destFolder).path = resolvePath destFolder filename
    ∧ (streamFile (streamFile fs filename destFolder).fsAfter filename destFolder).wrote
        = true
    ∧ (streamFile (streamFile fs filename destFolder).fsAfter filename destFolder).streamConsumed
        = true
    ∧ (streamFile (streamFile fs filename destFolder).fsAfter filename destFolder).path
        = (streamFile fs filename destFolder).path
    ∧ resolvePath destFolder filename ∈ (streamFile fs filename destFolder).fsAfter := by
  refine ⟨rfl, rfl, rfl, rfl, rfl, rfl, ?_⟩
  by_cases h : resolvePath destFolder filename ∈ fs
  · simp [streamFile, h]
  · simp [streamFile, h]

/-! ## Download resolution (v4 `_downloadFile`, src/lib/v4/downloads-ips4.js 188-219)

```js
let download = (readStream, body, filename) => {
  if (!body) { cachedFile.filename = filename; return this._streamFile(readStream, filename, destFolder) }
  if (body.match(/You have exceeded the maximum number of downloads allotted to you for the day/i)) { throw ... }
  if (body.match(/You may not download any more files until your other downloads are complete/i)) { throw ... }
  let waitMsg = body.match(/You must wait (\d+) seconds before you can download this file/i);
  if (waitMsg) {
    let wait = waitMsg[1] * 1000;
    return Promise.delay(wait).then(() => this._prepareDownload(opts).spread(download))
  }
  fs.writeFileSync('download-debug.html', body);
  throw new Error('Unknown error, see download-debug.html.');
};
return this._prepareDownload(opts).spread(download);
```
-/

def toLowerList (cs : List Char) : List Char := cs.map Char.toLower

/-- Whether `pat` occurs starting at some position of the input. -/
def containsAt (pat : List Char) : List Char → Bool
  | [] => pat.isPrefixOf []
  | c :: cs => pat.isPrefixOf (c :: cs) || containsAt pat cs

/-- Whether `pat` occurs in `hay`, compared case-insensitively, as for a
JS regex of plain literal characters with flag `i`. -/
def containsCI (hay pat : String) : Bool :=
  containsAt (toLowerList pat.toList) (toLowerList hay.toList)

def waitHead : List Char := "you must wait ".toList

def waitTail : List Char := " seconds before you can download this file".toList

/-- Match of `/You must wait (\d+) seconds before you can download this
file/i` anchored at the head of the input, returning the captured number
of seconds. -/
def waitMatchAt (cs : List Char) : Option Nat :=
  if waitHead.isPrefixOf (toLowerList cs) then
    let rest := cs.drop waitHead.length
    let ds := rest.takeWhile Char.isDigit
    if ds = [] then none
    else if waitTail.isPrefixOf (toLowerList (rest.drop ds.length)) then
      some (digitsVal ds)
    else none
  else none

def findWaitMatch : List Char → Option Nat
  | [] => none
  | c :: cs =>
    match waitMatchAt (c :: cs) with
    | some n => some n
    | none => findWaitMatch cs

/-- The number of seconds announced by a wait-period confirmation body,
if the body matches the wait regex. -/
def waitSeconds (body : String) : Option Nat := findWaitMatch body.toList

def dailyMsg : String :=
  "You have exceeded the maximum number of downloads allotted to you for the day"

def concurrentMsg : String :=
  "You may not download any more files until your other downloads are complete"

/-- A response to the (repeated) download request: a binary stream with a
disposition filename, or a textual body. -/
inductive DlResp
  | binary (filename : String)
  | text (body : String)
deriving Repr

inductive DlResult
  | saved (filename : String)
  | errDaily
  | errConcurrent
  | errUnknown
  /-- The response oracle ran out (a modelling artifact for a run cut
  short; the JS code would still be awaiting the next response). -/
  | noResponse
deriving DecidableEq, Repr

/-- The `download` handler of the v4 `_downloadFile`, run against the
sequence of responses the server returns to the identical repeated
request.  The first component collects the delays scheduled before each
retry, in ms. -/
def downloadRun : List DlResp → List Nat × DlResult
  | [] => ([], .noResponse)
  | .binary fn :: _ => ([], .saved fn)
  | .text body :: rest =>
    if containsCI body dailyMsg then ([], .errDaily)
    else if containsCI body concurrentMsg then ([], .errConcurrent)
    else
      match waitSeconds body with
      | some n =>
        let r := downloadRun rest
        (n * 1000 :: r.1, r.2)
      | none => ([], .errUnknown)

/-- Claim C4: a confirmation body announcing a wait of `n` seconds makes
the resolver schedule a delay of `n * 1000` ms and retry the same request
exactly once for this confirmation step — the run continues with exactly
the next response and nothing else — and if that retried response is
binary the resolution succeeds with its filename after that single
delay. -/
theorem downloadRun_wait_retry (body : String) (n : Nat) (rest : List DlResp)
    (hd : containsCI body dailyMsg = false)
    (hc : containsCI body concurrentMsg = false)
    (hw : waitSeconds body = some n) :
    downloadRun (DlResp.text body :: rest)
      = (n * 1000 :: (downloadRun rest).1, (downloadRun rest).2)
    ∧ ∀ (fn : String) (rest2 : List DlResp), rest = DlResp.binary fn :: rest2 →
        downloadRun (DlResp.text body :: rest) = ([n * 1000], DlResult.saved fn) := by
  have h1 : downloadRun (DlResp.text body :: rest)
      = (n * 1000 :: (downloadRun rest).1, (downloadRun rest).2) := by
    simp [downloadRun, hd, hc, hw]
  refine ⟨h1, ?_⟩
  intro fn rest2 hr
  rw [h1, hr]
  simp [downloadRun]

/-- Witness for claim C4: the concrete confirmation body announcing a
5-second wait, followed by a binary response, yields exactly one
scheduled delay of 5000 ms and a successful save. -/
theorem downloadRun_wait_retry_witness :
    downloadRun
        [DlResp.text "You must wait 5 seconds before you can download this file",
         DlResp.binary "widget.vpt"]
      = ([5 * 1000], DlResult.saved "widget.vpt") :=
  (downloadRun_wait_retry
      "You must wait 5 seconds before you can download this file" 5
      [DlResp.binary "widget.vpt"] (by decide) (by decide) (by decide)).2
    "widget.vpt" [] rfl

/-! ## Fuzzy search (`getSearchRegex` / `matchFile`, src/lib/downloads.js 566-580)

```js
function getSearchRegex(query) {
  return new RegExp(query.replace(/[^a-z0-9\s_-]+/gi, '').replace(/\s+/, '.*?'), 'i');
}
function matchFile(query) {
  var regex = getSearchRegex(query);
  return function(file) { return regex.test(file.title) || regex.test(file.description) }
}
```
-/

/-- JS `\s` on the ASCII range. -/
def isJsSpace (c : Char) : Bool :=
  c == ' ' || c == '\t' || c == '\n' || c == '\x0b' || c == '\x0c' || c == '\r'

/-- A character the first replace keeps: the class `[a-z0-9\s_-]` under
flag `i`. -/
def searchKeep (c : Char) : Bool :=
  c.isAlpha || c.isDigit || isJsSpace c || c == '_' || c == '-'

/-- A compiled pattern element: after the two replaces the pattern is
literal characters plus at most one `.*?` wildcard. -/
inductive RTok
  | lit (c : Char)
  | wild
deriving DecidableEq, Repr

/-- `query.replace(/[^a-z0-9\s_-]+/gi, '')`: removing every run of
disallowed characters amounts to filtering the characters. -/
def stripQuery (cs : List Char) : List Char := cs.filter searchKeep

/-- `.replace(/\s+/, '.*?')` — no `g` flag, so only the FIRST whitespace
run becomes the wildcard; any later whitespace stays a literal. -/
def collapseFirstWs : List Char → List RTok
  | [] => []
  | c :: rest =>
    if isJsSpace c then RTok.wild :: (rest.dropWhile isJsSpace).map RTok.lit
    else RTok.lit c :: collapseFirstWs rest

def getSearchRegex (q : String) : List RTok :=
  collapseFirstWs (stripQuery q.toList)

/-- A literal pattern character matches an input character under flag `i`. -/
def litMatches (p c : Char) : Bool := p.toLower == c.toLower

/-- JS `.` matches anything except a line terminator. -/
def dotMatches (c : Char) : Bool := !(c == '\n') && !(c == '\r')

/-- `.*?` followed by the continuation `k`: try the continuation here or
consume one dot-matchable character (laziness affects only match
positions, never whether a match exists). -/
def wildThen (k : List Char → Bool) : List Char → Bool
  | [] => k []
  | c :: cs => k (c :: cs) || (dotMatches c && wildThen k cs)

/-- Whether the token list matches a prefix of the input. -/
def matchToksFrom : List RTok → List Char → Bool
  | [], _ => true
  | RTok.lit _ :: _, [] => false
  | RTok.lit p :: ps, c :: cs => litMatches p c && matchToksFrom ps cs
  | RTok.wild :: ps, cs => wildThen (fun s => matchToksFrom ps s) cs

/-- `regex.test(s)` is unanchored: try every start position. -/
def regexTestAt (toks : List RTok) : List Char → Bool
  | [] => matchToksFrom toks []
  | c :: cs => matchToksFrom toks (c :: cs) || regexTestAt toks cs

def regexTest (toks : List RTok) (s : String) : Bool :=
  regexTestAt toks s.toList

/-- `matchFile(query)`: the predicate tests title OR description. -/
def matchFile (query : String) (file : FileRec) : Bool :=
  regexTest (getSearchRegex query) file.title
    || regexTest (getSearchRegex query) file.description

def funnyPicturesRec : FileRec := { id := 10, title := "Funny Pictures" }

def funnyPicsRec : FileRec := { id := 11, title := "Funny Pics" }

def seriousDocsRec : FileRec := { id := 12, title := "Serious Documents" }

/-- Claim C6 counterexample: the predicate built from "fun pics" REJECTS a
record titled "Funny Pictures" (the pattern is `fun.*?pics` and the title
contains no contiguous "pics"), contradicting the claimed example. -/
theorem matchFile_funnyPictures_cex :
    funnyPicturesRec.title = "Funny Pictures"
    ∧ matchFile "fun pics" funnyPicturesRec = false := by
  exact ⟨rfl, rfl⟩

/-- The number of wildcards in a compiled pattern. -/
def countWild (toks : List RTok) : Nat :=
  toks.countP (fun t => t == RTok.wild)

theorem countWild_map_lit (cs : List Char) : countWild (cs.map RTok.lit) = 0 := by
  rw [countWild, List.countP_eq_zero]
  intro t ht
  rcases List.mem_map.mp ht with ⟨c, _, rfl⟩
  simp

theorem countWild_collapse (cs : List Char) : countWild (collapseFirstWs cs) ≤ 1 := by
  induction cs with
  | nil => decide
  | cons c rest ih =>
    by_cases h : isJsSpace c = true
    · rw [collapseFirstWs, if_pos h]
      have h0 := countWild_map_lit (rest.dropWhile isJsSpace)
      simp only [countWild, List.countP_cons] at *
      simp [h0]
    · rw [collapseFirstWs, if_neg h]
      simpa [countWild, List.countP_cons] using ih

/-- Claim C6 (amended): the matcher strips the query, collapses only the
FIRST whitespace run into a wildcard (so every compiled pattern holds at
most one wildcard), compiles case-insensitively and tests title or
description; the predicate for "fun pics" accepts a record titled
"Funny Pics" and rejects one titled "Serious Documents". -/
theorem matchFile_first_run_wildcard :
    (∀ q : String, countWild (getSearchRegex q) ≤ 1)
    ∧ matchFile "fun pics" funnyPicsRec = true
    ∧ matchFile "fun pics" seriousDocsRec = false
    ∧ matchFile "FUN pics" funnyPicsRec = true := by
  exact ⟨fun q => countWild_collapse _, rfl, rfl, rfl⟩

/-! ## Disposition filename (`_prepareDownload`, src/lib/downloads.js 414-451)

```js
let match = response.headers['content-disposition'].match(/filename="([^"]+)"/i);
let filename;
if (match) {
  filename = match[1];
} else {
  filename = response.headers['content-disposition'].substr(
    response.headers['content-disposition'].toLowerCase().indexOf('filename'));
  filename = filename.trim().replace(/\s/g, '.').replace(/[^\w\d\.\-]/gi, '');
}
```
-/

/-- Match of `/filename="([^"]+)"/i` anchored at the head of the input,
returning the capture. -/
def quotedFilenameAt (cs : List Char) : Option (List Char) :=
  if ("filename=\"".toList).isPrefixOf (toLowerList cs) then
    let rest := cs.drop 10
    let cap := rest.takeWhile (fun c => !(c == '"'))
    if cap = [] then none
    else
      match rest.drop cap.length with
      | '"' :: _ => some cap
      | _ => none
  else none

/-- Leftmost match of `/filename="([^"]+)"/i`. -/
def findQuotedFilename : List Char → Option (List Char)
  | [] => none
  | c :: cs =>
    match quotedFilenameAt (c :: cs) with
    | some cap => some cap
    | none => findQuotedFilename cs

/-- JS `String.prototype.trim`. -/
def jsTrim (cs : List Char) : List Char :=
  ((cs.dropWhile isJsSpace).reverse.dropWhile isJsSpace).reverse

/-- `.trim().replace(/\s/g, '.').replace(/[^\w\d\.\-]/gi, '')`. -/
def sanitizeFallback (cs : List Char) : List Char :=
  ((jsTrim cs).map (fun c => if isJsSpace c then '.' else c)).filter
    (fun c => c.isAlpha || c.isDigit || c == '_' || c == '.' || c == '-')

/-- `hay.toLowerCase().indexOf(pat)` for a lowercase `pat`, as an
`Option Nat` (`none` for -1). -/
def findIdxOfCI : List Char → List Char → Option Nat
  | [], pat => if pat = [] then some 0 else none
  | c :: cs, pat =>
    if pat.isPrefixOf (toLowerList (c :: cs)) then some 0
    else
      match findIdxOfCI cs pat with
      | some n => some (n + 1)
      | none => none

/-- `header.substr(idx)` where `idx` is the result of `indexOf`:
a found index starts there; -1 means `substr(-1)`, the last character. -/
def jsSubstrFrom (cs : List Char) (idx : Option Nat) : List Char :=
  match idx with
  | some n => cs.drop n
  | none => cs.drop (cs.length - 1)

/-- The filename `_prepareDownload` resolves from a present
content-disposition header: the quoted capture when the clause is
well-formed, otherwise the sanitized substring of the raw header starting
at "filename" (or `substr(-1)` when even that token is absent). -/
def parseDispositionFilename (header : String) : String :=
  match findQuotedFilename header.toList with
  | some cap => String.mk cap
  | none =>
    String.mk (sanitizeFallback
      (jsSubstrFrom header.toList (findIdxOfCI header.toList "filename".toList)))

/-- Definition following the specification's words for the malformed
header fallback: the substring of the raw header AFTER "filename" (the 8
characters of the token excluded), whitespace replaced by a separator and
non-word characters stripped. -/
def specFallbackAfter (header : String) : String :=
  match findIdxOfCI header.toList "filename".toList with
  | some n => String.mk (sanitizeFallback (header.toList.drop (n + 8)))
  | none => String.mk (sanitizeFallback header.toList)

/-- Claim C8 counterexample: for the malformed header
`attachment; filename=foo bar.zip` the code keeps the token "filename"
itself in the result, so the resolved name differs from the
specification's "substring after filename". -/
theorem dispositionFallback_cex :
    parseDispositionFilename "attachment; filename=foo bar.zip" = "filenamefoo.bar.zip"
    ∧ specFallbackAfter "attachment; filename=foo bar.zip" = "foo.bar.zip"
    ∧ parseDispositionFilename "attachment; filename=foo bar.zip"
        ≠ specFallbackAfter "attachment; filename=foo bar.zip" := by
  refine ⟨rfl, rfl, by decide⟩

theorem findIdxOfCI_correct (pat : List Char) :
    ∀ (hay : List Char) (n : Nat), findIdxOfCI hay pat = some n →
      pat.isPrefixOf (toLowerList (hay.drop n)) = true := by
  intro hay
  induction hay with
  | nil =>
    intro n h
    rw [findIdxOfCI] at h
    by_cases hp : pat = []
    · rw [if_pos hp] at h
      cases h
      simp [hp, toLowerList, List.isPrefixOf]
    · rw [if_neg hp] at h
      cases h
  | cons c cs ih =>
    intro n h
    rw [findIdxOfCI] at h
    by_cases hp : pat.isPrefixOf (toLowerList (c :: cs)) = true
    · rw [if_pos hp] at h
      cases h
      simpa using hp
    · rw [if_neg hp] at h
      cases hrec : findIdxOfCI cs pat with
      | none => rw [hrec] at h; cases h
      | some m =>
        rw [hrec] at h
        cases h
        simpa using ih m hrec

/-- Claim C8 (amended): with a well-formed `filename="..."` clause the
resolved name is exactly the quoted value; with a malformed header that
still contains "filename" (case-insensitively) the resolved name is the
sanitized substring of the raw header FROM that token onward — the token
"filename" itself included — where the kept suffix indeed starts with
"filename". -/
theorem dispositionFilename_amended (header : String) :
    (∀ cap, findQuotedFilename header.toList = some cap →
        parseDispositionFilename header = String.mk cap)
    ∧ (∀ n, findQuotedFilename header.toList = none →
        findIdxOfCI header.toList ("filename".toList) = some n →
        parseDispositionFilename header
            = String.mk (sanitizeFallback (header.toList.drop n))
          ∧ ("filename".toList).isPrefixOf (toLowerList (header.toList.drop n))
              = true) := by
  constructor
  · intro cap hcap
    rw [parseDispositionFilename, hcap]
  · intro n hq hidx
    constructor
    · rw [parseDispositionFilename, hq, hidx]
      rfl
    · exact findIdxOfCI_correct _ header.toList n hidx

/-- Witness for the amended claim C8 at concrete headers: a well-formed
clause resolves to its quoted value; the malformed header resolves to the
sanitized suffix starting at "filename". -/
theorem dispositionFilename_amended_witness :
    parseDispositionFilename "attachment; filename=\"Foo Bar.zip\"" = "Foo Bar.zip"
    ∧ (parseDispositionFilename "attachment; filename=foo bar.zip"
          = String.mk (sanitizeFallback
              (("attachment; filename=foo bar.zip").toList.drop 12))
        ∧ ("filename".toList).isPrefixOf
            (toLowerList (("attachment; filename=foo bar.zip").toList.drop 12))
            = true) :=
  ⟨(dispositionFilename_amended "attachment; filename=\"Foo Bar.zip\"").1
      ("Foo Bar.zip".toList) rfl,
   (dispositionFilename_amended "attachment; filename=foo bar.zip").2 12 rfl rfl⟩

end IpsLib
